import Mathlib

/-!
Verification development for the DNS-leak-prevention enforcement engine
behind the four-call WinDns API (WinDns_Initialize / WinDns_Set /
WinDns_Reset / WinDns_Deinitialize) exercised by the C++ demo program in
the repository.  The engine implementation itself is not part of the
visible sources, so every definition below is modelled from the design
specification of the engine (data model, component design, error
taxonomy) and the claims are settled against that model.
-/

/-- Modelled from the spec: an OS-visible network adapter is identified
by an opaque identifier. -/
abbrev InterfaceId := Nat

/-- Modelled from the spec: a DNS server address. -/
abbrev Address := String

/-- Modelled from the spec: the DNS-relevant configuration of one
interface — its ordered server list and its DHCP-enabled flag. -/
structure DnsConfig where
  servers : List Address
  dhcp : Bool
deriving DecidableEq, Repr

/-- Modelled from the spec: `captureOriginal` yields an interface
snapshot, which is exactly a DNS configuration (servers plus DHCP flag). -/
abbrev InterfaceSnapshot := DnsConfig

/-- Modelled from the spec: per-interface enforcement status. -/
inductive EnforcementStatus where
  | unmanaged
  | enforced
  | restoring
deriving DecidableEq, Repr

/-- Modelled from the spec: an InterfaceRecord holds the interface
identifier, the captured original snapshot and the enforcement status. -/
structure InterfaceRecord where
  id : InterfaceId
  original : InterfaceSnapshot
  status : EnforcementStatus
deriving DecidableEq, Repr

/-- Modelled from the spec: an EnforcementSession aggregates the desired
configuration and the per-interface records; its presence is the
Idle/Active discriminator. -/
structure EnforcementSession where
  desired : List Address
  records : List InterfaceRecord
deriving DecidableEq, Repr

/-- Modelled from the spec: the engine's state — whether a sink was
stored by initialization, the optional session, whether the change
monitor is armed, and the log of advisory reports sent to the sink. -/
structure EngineState where
  initialized : Bool
  session : Option EnforcementSession
  monitorArmed : Bool
  log : List String
deriving DecidableEq, Repr

/-- Modelled from the spec: the OS's view of the eligible interfaces,
as an association list from interface identifier to live DNS
configuration. -/
abbrev OsState := List (InterfaceId × DnsConfig)

/-- Modelled from the spec: the failure behaviour of the underlying OS
primitives (enumeration, per-interface apply, monitor subscription,
per-interface restore) during one operation. -/
structure Env where
  enumFails : Bool
  applyFails : InterfaceId → Bool
  subscribeFails : Bool
  restoreFails : InterfaceId → Bool

/-- Modelled from the spec: the error taxonomy of the engine. -/
inductive EngineError where
  | initFailure
  | interfaceEnumeration
  | applyAggregate
  | monitorSubscription
deriving DecidableEq, Repr

/-- Modelled from the spec: observable actions of one operation, used to
state ordering properties (disarm before restore, restore before
releasing the sink). -/
inductive EngineAction where
  | disarmMonitor
  | armMonitor
  | restoreIface (id : InterfaceId)
  | releaseSink
deriving DecidableEq, Repr

/-- Read the live DNS configuration of an interface. -/
def osLookup : OsState → InterfaceId → Option DnsConfig
  | [], _ => none
  | p :: rest, id => if p.1 = id then some p.2 else osLookup rest id

/-- Write a DNS configuration onto an interface (no effect when the
interface does not exist). -/
def osSet : OsState → InterfaceId → DnsConfig → OsState
  | [], _, _ => []
  | p :: rest, id, cfg => (if p.1 = id then (id, cfg) else p) :: osSet rest id cfg

/-- The identifiers of the currently existing interfaces, in order. -/
def osKeys (os : OsState) : List InterfaceId := os.map Prod.fst

/-- Well-formedness of the OS state: one entry per interface. -/
def OsWF (os : OsState) : Prop := (osKeys os).Nodup

instance : DecidablePred OsWF := fun os => by
  unfold OsWF; infer_instance

@[simp]
theorem osKeys_nil : osKeys [] = [] := rfl

@[simp]
theorem osKeys_cons (p : InterfaceId × DnsConfig) (rest : OsState) :
    osKeys (p :: rest) = p.1 :: osKeys rest := rfl

theorem osWF_cons (p : InterfaceId × DnsConfig) (rest : OsState) :
    OsWF (p :: rest) ↔ p.1 ∉ osKeys rest ∧ OsWF rest := by
  simp [OsWF, List.nodup_cons]

theorem osKeys_osSet (os : OsState) (id : InterfaceId) (cfg : DnsConfig) :
    osKeys (osSet os id cfg) = osKeys os := by
  induction os with
  | nil => rfl
  | cons p rest ih =>
    obtain ⟨k, v⟩ := p
    by_cases h : k = id <;> simp [osSet, h, ih]

theorem osLookup_osSet (os : OsState) (id x : InterfaceId) (cfg : DnsConfig) :
    osLookup (osSet os id cfg) x =
      if x = id then (osLookup os id).map (fun _ => cfg) else osLookup os x := by
  induction os with
  | nil => by_cases h : x = id <;> simp [osSet, osLookup, h]
  | cons p rest ih =>
    obtain ⟨k, v⟩ := p
    by_cases hk : k = id
    · subst hk
      by_cases hx : x = k
      · subst hx
        simp [osSet, osLookup, ih]
      · have hkx : ¬ k = x := fun hc => hx hc.symm
        simp [osSet, osLookup, hx, hkx, ih]
    · by_cases hx : x = id
      · subst hx
        have hkx : ¬ k = x := hk
        simp [osSet, osLookup, hk, hkx, ih]
      · by_cases hkx : k = x <;> simp [osSet, osLookup, hk, hx, hkx, ih]

theorem osSet_of_not_mem (os : OsState) (id : InterfaceId) (cfg : DnsConfig)
    (h : id ∉ osKeys os) : osSet os id cfg = os := by
  induction os with
  | nil => rfl
  | cons p rest ih =>
    obtain ⟨k, v⟩ := p
    rw [osKeys_cons, List.mem_cons] at h
    push_neg at h
    have hk : ¬ k = id := fun hc => h.1 hc.symm
    simp [osSet, hk]
    exact ih h.2

theorem osSet_eq_of_lookup (os : OsState) (id : InterfaceId) (cfg : DnsConfig)
    (hwf : OsWF os) (h : osLookup os id = some cfg) : osSet os id cfg = os := by
  induction os with
  | nil => rfl
  | cons p rest ih =>
    obtain ⟨k, v⟩ := p
    have hwf' := (osWF_cons (k, v) rest).mp hwf
    by_cases hk : k = id
    · subst hk
      simp [osLookup] at h
      simp [osSet, osSet_of_not_mem rest k cfg hwf'.1, h]
    · simp [osLookup, hk] at h
      simp [osSet, hk]
      exact ih hwf'.2 h

theorem osSet_osSet_same (os : OsState) (id : InterfaceId) (c c' : DnsConfig) :
    osSet (osSet os id c) id c' = osSet os id c' := by
  induction os with
  | nil => rfl
  | cons p rest ih =>
    obtain ⟨k, v⟩ := p
    by_cases hk : k = id <;> simp [osSet, hk, ih]

theorem osSet_comm (os : OsState) (i j : InterfaceId) (c d : DnsConfig)
    (hij : i ≠ j) : osSet (osSet os i c) j d = osSet (osSet os j d) i c := by
  induction os with
  | nil => rfl
  | cons p rest ih =>
    obtain ⟨k, v⟩ := p
    by_cases hki : k = i <;> by_cases hkj : k = j
    · exact absurd (hki.symm.trans hkj) hij
    · simp [osSet, hki, hkj, hij, Ne.symm hij, ih]
    · simp [osSet, hki, hkj, hij, Ne.symm hij, ih]
    · simp [osSet, hki, hkj, ih]

theorem osLookup_isSome_iff_mem (os : OsState) (id : InterfaceId) :
    (osLookup os id).isSome ↔ id ∈ osKeys os := by
  induction os with
  | nil => simp [osLookup]
  | cons p rest ih =>
    obtain ⟨k, v⟩ := p
    by_cases hk : k = id
    · subst hk
      simp [osLookup]
    · have hk' : ¬ id = k := fun hc => hk hc.symm
      simp [osLookup, hk, hk', ih]

/-- The configuration written by the applier: the desired servers as
static DNS, with DHCP-assigned DNS disabled. -/
def appliedConfig (servers : List Address) : DnsConfig :=
  DnsConfig.mk servers false

/-- Result of enforcing a server list over a list of interfaces. -/
structure EnforceOut where
  records : List InterfaceRecord
  os : OsState
  failed : List InterfaceId
deriving DecidableEq, Repr

/-- Result of restoring a list of interface records. -/
structure RestoreOut where
  os : OsState
  failed : List InterfaceId
deriving DecidableEq, Repr

/-- Result of one engine operation: the returned value, the new engine
state, the new OS state and the trace of observable actions. -/
structure OpOut where
  result : Except EngineError Unit
  state : EngineState
  os : OsState
  trace : List EngineAction
deriving Repr

/-- Find the record of an interface within a session's record list. -/
def findRecord : List InterfaceRecord → InterfaceId → Option InterfaceRecord
  | [], _ => none
  | r :: rest, id => if r.id = id then some r else findRecord rest id

/-- Modelled from the spec: the from-Idle enforcement pass of
`setDnsServers` — for each enumerated interface, capture the original
snapshot, then apply the desired servers; an interface that vanished or
whose apply failed is skipped and collected as failed. -/
def enforceAll (env : Env) (servers : List Address) :
    List InterfaceId → OsState → EnforceOut
  | [], os => EnforceOut.mk [] os []
  | id :: rest, os =>
    match osLookup os id with
    | none =>
      let out := enforceAll env servers rest os
      EnforceOut.mk out.records out.os (id :: out.failed)
    | some snap =>
      if env.applyFails id then
        let out := enforceAll env servers rest os
        EnforceOut.mk out.records out.os (id :: out.failed)
      else
        let out := enforceAll env servers rest (osSet os id (appliedConfig servers))
        EnforceOut.mk
          (InterfaceRecord.mk id snap EnforcementStatus.enforced :: out.records)
          out.os out.failed

/-- Modelled from the spec: the from-Active pass of `setDnsServers` —
re-apply the new desired servers to every currently known interface and
capture-then-apply every newly discovered one; individual failures are
advisory.  Returns only the newly created records. -/
def reapplyAll (env : Env) (servers : List Address) (known : List InterfaceRecord) :
    List InterfaceId → OsState → EnforceOut
  | [], os => EnforceOut.mk [] os []
  | id :: rest, os =>
    match findRecord known id with
    | some _ =>
      if env.applyFails id then
        let out := reapplyAll env servers known rest os
        EnforceOut.mk out.records out.os (id :: out.failed)
      else
        reapplyAll env servers known rest (osSet os id (appliedConfig servers))
    | none =>
      match osLookup os id with
      | none =>
        let out := reapplyAll env servers known rest os
        EnforceOut.mk out.records out.os (id :: out.failed)
      | some snap =>
        if env.applyFails id then
          let out := reapplyAll env servers known rest os
          EnforceOut.mk out.records out.os (id :: out.failed)
        else
          let out := reapplyAll env servers known rest (osSet os id (appliedConfig servers))
          EnforceOut.mk
            (InterfaceRecord.mk id snap EnforcementStatus.enforced :: out.records)
            out.os out.failed

/-- Modelled from the spec: `reset`'s restoration pass — call restore on
every InterfaceRecord, continuing past individual failures and
collecting them. -/
def restoreAll (env : Env) : List InterfaceRecord → OsState → RestoreOut
  | [], os => RestoreOut.mk os []
  | r :: rest, os =>
    if env.restoreFails r.id then
      let out := restoreAll env rest os
      RestoreOut.mk out.os (r.id :: out.failed)
    else
      restoreAll env rest (osSet os r.id r.original)

/-- Advisory report emitted to the sink when some, but not all,
interfaces failed to receive the desired configuration. -/
def reportPartialApply : String := "PartialApplyError"

/-- Advisory aggregate report emitted to the sink when one or more
interfaces failed to restore during reset. -/
def reportRestore : String := "RestoreError"

/-- Modelled from the spec: `setDnsServers(servers)`.  From Idle:
enumerate, capture a record per interface, apply the servers, and only
if at least one interface was successfully enforced subscribe the
monitor and transition to Active; zero enforced interfaces is a hard
failure leaving no session behind, and a subscription failure is fatal.
From Active: update the stored desired configuration and re-apply it to
every known and newly discovered interface, reporting individual
failures as advisory. -/
def setDnsServers (env : Env) (servers : List Address) (st : EngineState) (os : OsState) :
    OpOut :=
  match st.session with
  | none =>
    if env.enumFails then
      OpOut.mk (Except.error EngineError.interfaceEnumeration) st os []
    else if osKeys os = [] then
      OpOut.mk (Except.error EngineError.interfaceEnumeration) st os []
    else
      let out := enforceAll env servers (osKeys os) os
      if out.records.isEmpty then
        OpOut.mk (Except.error EngineError.applyAggregate) st out.os []
      else if env.subscribeFails then
        OpOut.mk (Except.error EngineError.monitorSubscription) st out.os []
      else
        OpOut.mk (Except.ok ())
          (EngineState.mk st.initialized
            (some (EnforcementSession.mk servers out.records)) true
            (if out.failed.isEmpty then st.log else st.log ++ [reportPartialApply]))
          out.os [EngineAction.armMonitor]
  | some s =>
    if env.enumFails then
      OpOut.mk (Except.error EngineError.interfaceEnumeration) st os []
    else
      let out := reapplyAll env servers s.records (osKeys os) os
      OpOut.mk (Except.ok ())
        (EngineState.mk st.initialized
          (some (EnforcementSession.mk servers (s.records ++ out.records)))
          st.monitorArmed
          (if out.failed.isEmpty then st.log else st.log ++ [reportPartialApply]))
        out.os []

/-- The trace of a reset that tears down session `s`: the monitor is
disarmed first, then every record is restored, in order. -/
def resetTrace (s : EnforcementSession) : List EngineAction :=
  EngineAction.disarmMonitor :: s.records.map (fun r => EngineAction.restoreIface r.id)

/-- Modelled from the spec: `reset()`.  From Active: disarm the monitor
first, then restore every InterfaceRecord, continuing past individual
failures and aggregating them into a RestoreError report; clear the
session and return to Idle regardless of per-interface outcome.  From
Idle: a no-op success. -/
def reset (env : Env) (st : EngineState) (os : OsState) : OpOut :=
  match st.session with
  | none => OpOut.mk (Except.ok ()) st os []
  | some s =>
    let out := restoreAll env s.records os
    OpOut.mk (Except.ok ())
      (EngineState.mk st.initialized none false
        (if out.failed.isEmpty then st.log else st.log ++ [reportRestore]))
      out.os (resetTrace s)

/-- Modelled from the spec: `deinitialize()`.  If Active, perform the
equivalent of `reset()` first; then release the sink reference and any
residual monitor resources. -/
def deinitializeEngine (env : Env) (st : EngineState) (os : OsState) : OpOut :=
  match st.session with
  | none =>
    OpOut.mk (Except.ok ()) (EngineState.mk false none false st.log) os
      [EngineAction.releaseSink]
  | some _ =>
    let r := reset env st os
    OpOut.mk (Except.ok ()) (EngineState.mk false none false r.state.log) r.os
      (r.trace ++ [EngineAction.releaseSink])

/-- Modelled from the spec: `initialize(sink)` — validates that the sink
is usable and that no prior initialization is still in place, then
stores the sink for the process's remaining lifetime. -/
def initializeEngine (sinkUsable : Bool) (st : EngineState) (os : OsState) : OpOut :=
  if sinkUsable = false then
    OpOut.mk (Except.error EngineError.initFailure) st os []
  else if st.initialized then
    OpOut.mk (Except.error EngineError.initFailure) st os []
  else
    OpOut.mk (Except.ok ())
      (EngineState.mk true st.session st.monitorArmed st.log) os []

/-- Modelled from the spec: one monitor-driven reconciliation pass —
re-enumerate; for each interface whose live configuration no longer
matches the desired configuration, or that is new, capture-if-needed
and re-apply; records of vanished interfaces are discarded. -/
def reconcileGo (env : Env) (desired : List Address) (known : List InterfaceRecord) :
    List InterfaceId → OsState → List InterfaceRecord × OsState
  | [], os => ([], os)
  | id :: rest, os =>
    match findRecord known id with
    | some _ =>
      if osLookup os id = some (appliedConfig desired) then
        reconcileGo env desired known rest os
      else if env.applyFails id then
        reconcileGo env desired known rest os
      else
        reconcileGo env desired known rest (osSet os id (appliedConfig desired))
    | none =>
      match osLookup os id with
      | none => reconcileGo env desired known rest os
      | some snap =>
        if env.applyFails id then
          reconcileGo env desired known rest os
        else
          let out := reconcileGo env desired known rest (osSet os id (appliedConfig desired))
          (InterfaceRecord.mk id snap EnforcementStatus.enforced :: out.1, out.2)

/-- Modelled from the spec: the reconciler entry point, a no-op unless a
session exists. -/
def reconcile (env : Env) (st : EngineState) (os : OsState) : EngineState × OsState :=
  match st.session with
  | none => (st, os)
  | some s =>
    if env.enumFails then (st, os)
    else
      let kept := s.records.filter (fun r => (osLookup os r.id).isSome)
      let out := reconcileGo env s.desired kept (osKeys os) os
      (EngineState.mk st.initialized
        (some (EnforcementSession.mk s.desired (kept ++ out.1)))
        st.monitorArmed st.log, out.2)

/-- Modelled from the spec: the single-writer coalescing discipline of
the reconciler — whether a pass is in flight and whether events arrived
while it was. -/
structure Coalescer where
  inFlight : Bool
  pending : Bool
deriving DecidableEq, Repr

/-- Modelled from the spec: delivery of one change event — start a pass
if none is in flight, otherwise just mark a follow-up as pending.  The
returned flag says whether a pass starts now. -/
def onChangeEvent (c : Coalescer) : Coalescer × Bool :=
  if c.inFlight then (Coalescer.mk true true, false)
  else (Coalescer.mk true false, true)

/-- Modelled from the spec: completion of the in-flight pass — if events
arrived meanwhile, start exactly one follow-up pass; otherwise go idle.
The returned flag says whether a follow-up starts. -/
def onPassComplete (c : Coalescer) : Coalescer × Bool :=
  if c.pending then (Coalescer.mk true false, true)
  else (Coalescer.mk false c.pending, false)

/-- Deliver a burst of `n` change events, counting how many passes start
during the burst itself. -/
def deliverBurst : Nat → Coalescer → Coalescer × Nat
  | 0, c => (c, 0)
  | n + 1, c =>
    let e := onChangeEvent c
    let out := deliverBurst n e.1
    (out.1, (if e.2 then 1 else 0) + out.2)

/-- One enforcement cycle: `setDnsServers` followed by `reset`. -/
def setResetCycle (env : Env) (servers : List Address) (st : EngineState) (os : OsState) :
    EngineState × OsState :=
  let o1 := setDnsServers env servers st os
  let o2 := reset env o1.state o1.os
  (o2.state, o2.os)

/-- Iterate `setResetCycle` a given number of times. -/
def iterateCycles (env : Env) (servers : List Address) :
    Nat → EngineState × OsState → EngineState × OsState
  | 0, p => p
  | n + 1, p => iterateCycles env servers n (setResetCycle env servers p.1 p.2)

/-- Consistency invariant (d) of the data model: the monitor is armed
iff a session exists. -/
def ArmedIffSession (st : EngineState) : Prop :=
  st.monitorArmed = st.session.isSome

theorem enforce_records_mem (env : Env) (servers : List Address) :
    ∀ (ids : List InterfaceId) (os : OsState) (r : InterfaceRecord),
      r ∈ (enforceAll env servers ids os).records → r.id ∈ ids := by
  intro ids
  induction ids with
  | nil =>
    intro os r h
    simp [enforceAll] at h
  | cons id rest ih =>
    intro os r h
    cases hl : osLookup os id with
    | none =>
      simp [enforceAll, hl] at h
      exact List.mem_cons_of_mem _ (ih _ _ h)
    | some snap =>
      by_cases ha : env.applyFails id
      · simp [enforceAll, hl, ha] at h
        exact List.mem_cons_of_mem _ (ih _ _ h)
      · simp [enforceAll, hl, ha] at h
        cases h with
        | inl he => rw [he]; exact List.mem_cons_self _ _
        | inr hm => exact List.mem_cons_of_mem _ (ih _ _ hm)

theorem enforce_keys (env : Env) (servers : List Address) :
    ∀ (ids : List InterfaceId) (os : OsState),
      osKeys (enforceAll env servers ids os).os = osKeys os := by
  intro ids
  induction ids with
  | nil => intro os; rfl
  | cons id rest ih =>
    intro os
    cases hl : osLookup os id with
    | none => simp [enforceAll, hl, ih]
    | some snap =>
      by_cases ha : env.applyFails id
      · simp [enforceAll, hl, ha, ih]
      · simp [enforceAll, hl, ha, ih, osKeys_osSet]

theorem enforce_records_nil_os (env : Env) (servers : List Address) :
    ∀ (ids : List InterfaceId) (os : OsState),
      (enforceAll env servers ids os).records = [] →
      (enforceAll env servers ids os).os = os := by
  intro ids
  induction ids with
  | nil => intro os _; rfl
  | cons id rest ih =>
    intro os h
    cases hl : osLookup os id with
    | none =>
      simp [enforceAll, hl] at h ⊢
      exact ih _ h
    | some snap =>
      by_cases ha : env.applyFails id
      · simp [enforceAll, hl, ha] at h ⊢
        exact ih _ h
      · simp [enforceAll, hl, ha] at h

theorem restoreAll_osSet_comm (env : Env) :
    ∀ (recs : List InterfaceRecord) (os : OsState) (i : InterfaceId) (c : DnsConfig),
      (∀ r ∈ recs, r.id ≠ i) →
      restoreAll env recs (osSet os i c) =
        RestoreOut.mk (osSet (restoreAll env recs os).os i c)
          (restoreAll env recs os).failed := by
  intro recs
  induction recs with
  | nil => intro os i c _; rfl
  | cons r rest ih =>
    intro os i c h
    have hr : r.id ≠ i := h r (List.mem_cons_self r rest)
    have hrest : ∀ x ∈ rest, x.id ≠ i := fun x hx => h x (List.mem_cons_of_mem r hx)
    by_cases hf : env.restoreFails r.id
    · simp [restoreAll, hf, ih _ _ _ hrest]
    · simp only [restoreAll, hf, if_neg (by simp [hf] : ¬ env.restoreFails r.id = true)]
      rw [osSet_comm os i r.id c r.original (fun hc => hr hc.symm)]
      exact ih _ _ _ hrest

theorem restore_after_enforce (env : Env) (servers : List Address)
    (hres : ∀ id, env.restoreFails id = false) :
    ∀ (ids : List InterfaceId) (os : OsState), OsWF os → ids.Nodup →
      (∀ x ∈ ids, x ∈ osKeys os) →
      (restoreAll env (enforceAll env servers ids os).records
        (enforceAll env servers ids os).os).os = os := by
  intro ids
  induction ids with
  | nil => intro os _ _ _; rfl
  | cons id rest ih =>
    intro os hwf hnd hmem
    have hid : id ∈ osKeys os := hmem id (List.mem_cons_self id rest)
    obtain ⟨snap, hl⟩ :=
      Option.isSome_iff_exists.mp ((osLookup_isSome_iff_mem os id).mpr hid)
    have hnd' := List.nodup_cons.mp hnd
    by_cases ha : env.applyFails id
    · simp [enforceAll, hl, ha]
      exact ih os hwf hnd'.2 (fun x hx => hmem x (List.mem_cons_of_mem _ hx))
    · simp only [enforceAll, hl, if_neg (by simp [ha] : ¬ env.applyFails id = true)]
      simp only [restoreAll, hres id, Bool.false_eq_true, if_false]
      have hsub : ∀ r ∈ (enforceAll env servers rest
          (osSet os id (appliedConfig servers))).records, r.id ≠ id := by
        intro r hrm hc
        exact hnd'.1 (hc ▸ enforce_records_mem env servers rest _ r hrm)
      rw [restoreAll_osSet_comm env _ _ _ _ hsub]
      have hwf' : OsWF (osSet os id (appliedConfig servers)) := by
        unfold OsWF
        rw [osKeys_osSet]
        exact hwf
      have hmem' : ∀ x ∈ rest, x ∈ osKeys (osSet os id (appliedConfig servers)) := by
        intro x hx
        rw [osKeys_osSet]
        exact hmem x (List.mem_cons_of_mem _ hx)
      rw [ih (osSet os id (appliedConfig servers)) hwf' hnd'.2 hmem']
      rw [osSet_osSet_same]
      exact osSet_eq_of_lookup os id snap hwf hl

theorem enforce_lookup_or (env : Env) (servers : List Address) :
    ∀ (ids : List InterfaceId) (os : OsState) (x : InterfaceId),
      osLookup (enforceAll env servers ids os).os x = osLookup os x ∨
      osLookup (enforceAll env servers ids os).os x = some (appliedConfig servers) := by
  intro ids
  induction ids with
  | nil => intro os x; left; rfl
  | cons id rest ih =>
    intro os x
    cases hl : osLookup os id with
    | none => simpa [enforceAll, hl] using ih os x
    | some snap =>
      by_cases ha : env.applyFails id
      · simpa [enforceAll, hl, ha] using ih os x
      · simp only [enforceAll, hl, if_neg (by simp [ha] : ¬ env.applyFails id = true)]
        rcases ih (osSet os id (appliedConfig servers)) x with h | h
        · rw [osLookup_osSet] at h
          by_cases hx : x = id
        -- when x = id the rewritten lookup is already the applied config
          · right
            rw [h, hx, hl]
            simp
          · left
            rw [h]
            simp [hx]
        · right
          exact h

theorem enforce_lookup_target (env : Env) (servers : List Address)
    (hap : ∀ id, env.applyFails id = false) :
    ∀ (ids : List InterfaceId) (os : OsState) (x : InterfaceId),
      x ∈ ids → x ∈ osKeys os →
      osLookup (enforceAll env servers ids os).os x = some (appliedConfig servers) := by
  intro ids
  induction ids with
  | nil => intro os x hx _; simp at hx
  | cons id rest ih =>
    intro os x hx hmem
    have hsome : (osLookup os id).isSome ∨ id ∉ osKeys os := by
      by_cases h : id ∈ osKeys os
      · exact Or.inl ((osLookup_isSome_iff_mem os id).mpr h)
      · exact Or.inr h
    cases hl : osLookup os id with
    | none =>
      simp only [enforceAll, hl]
      rcases List.mem_cons.mp hx with hx1 | hx2
      · exfalso
        rw [hx1] at hmem
        have := (osLookup_isSome_iff_mem os id).mpr hmem
        rw [hl] at this
        simp at this
      · exact ih os x hx2 hmem
    | some snap =>
      simp only [enforceAll, hl, hap id, Bool.false_eq_true, if_false]
      rcases List.mem_cons.mp hx with hx1 | hx2
      · subst hx1
        rcases enforce_lookup_or env servers rest (osSet os x (appliedConfig servers)) x
          with h | h
        · rw [h, osLookup_osSet, if_pos rfl, hl]
          rfl
        · exact h
      · apply ih _ x hx2
        rw [osKeys_osSet]
        exact hmem

theorem enforce_records_ids (env : Env) (servers : List Address)
    (hap : ∀ id, env.applyFails id = false) :
    ∀ (ids : List InterfaceId) (os : OsState),
      (∀ x ∈ ids, x ∈ osKeys os) →
      (enforceAll env servers ids os).records.map (fun r => r.id) = ids := by
  intro ids
  induction ids with
  | nil => intro os _; rfl
  | cons id rest ih =>
    intro os hmem
    obtain ⟨snap, hl⟩ := Option.isSome_iff_exists.mp
      ((osLookup_isSome_iff_mem os id).mpr (hmem id (List.mem_cons_self id rest)))
    simp only [enforceAll, hl, hap id, Bool.false_eq_true, if_false, List.map_cons]
    congr 1
    apply ih
    intro x hx
    rw [osKeys_osSet]
    exact hmem x (List.mem_cons_of_mem _ hx)

theorem enforce_failed_nil (env : Env) (servers : List Address)
    (hap : ∀ id, env.applyFails id = false) :
    ∀ (ids : List InterfaceId) (os : OsState),
      (∀ x ∈ ids, x ∈ osKeys os) →
      (enforceAll env servers ids os).failed = [] := by
  intro ids
  induction ids with
  | nil => intro os _; rfl
  | cons id rest ih =>
    intro os hmem
    obtain ⟨snap, hl⟩ := Option.isSome_iff_exists.mp
      ((osLookup_isSome_iff_mem os id).mpr (hmem id (List.mem_cons_self id rest)))
    simp only [enforceAll, hl, hap id, Bool.false_eq_true, if_false]
    apply ih
    intro x hx
    rw [osKeys_osSet]
    exact hmem x (List.mem_cons_of_mem _ hx)

theorem restore_failed_nil (env : Env)
    (hres : ∀ id, env.restoreFails id = false) :
    ∀ (recs : List InterfaceRecord) (os : OsState),
      (restoreAll env recs os).failed = [] := by
  intro recs
  induction recs with
  | nil => intro os; rfl
  | cons r rest ih =>
    intro os
    simp only [restoreAll, hres r.id, Bool.false_eq_true, if_false]
    exact ih _

theorem findRecord_isSome_iff (recs : List InterfaceRecord) (id : InterfaceId) :
    (findRecord recs id).isSome ↔ id ∈ recs.map (fun r => r.id) := by
  induction recs with
  | nil => simp [findRecord]
  | cons r rest ih =>
    by_cases hr : r.id = id
    · subst hr
      simp [findRecord]
    · have hr' : ¬ id = r.id := fun hc => hr hc.symm
      simp [findRecord, hr, hr', ih]

theorem findRecord_of_mem (recs : List InterfaceRecord) (r : InterfaceRecord)
    (h : r ∈ recs) : (findRecord recs r.id).isSome := by
  rw [findRecord_isSome_iff]
  exact List.mem_map_of_mem _ h

theorem reapply_fixed (env : Env) (servers : List Address)
    (known : List InterfaceRecord) (hap : ∀ id, env.applyFails id = false) :
    ∀ (ids : List InterfaceId) (os : OsState), OsWF os →
      (∀ x ∈ ids, (findRecord known x).isSome ∧
        osLookup os x = some (appliedConfig servers)) →
      reapplyAll env servers known ids os = EnforceOut.mk [] os [] := by
  intro ids
  induction ids with
  | nil => intro os _ _; rfl
  | cons id rest ih =>
    intro os hwf h
    obtain ⟨hfind, hlook⟩ := h id (List.mem_cons_self id rest)
    obtain ⟨r, hr⟩ := Option.isSome_iff_exists.mp hfind
    simp only [reapplyAll, hr, hap id, Bool.false_eq_true, if_false]
    rw [osSet_eq_of_lookup os id (appliedConfig servers) hwf hlook]
    exact ih os hwf (fun x hx => h x (List.mem_cons_of_mem _ hx))

theorem enforce_allfail (env : Env) (servers : List Address)
    (hap : ∀ id, env.applyFails id = true) :
    ∀ (ids : List InterfaceId) (os : OsState),
      (enforceAll env servers ids os).records = [] ∧
      (enforceAll env servers ids os).os = os := by
  intro ids
  induction ids with
  | nil => intro os; exact ⟨rfl, rfl⟩
  | cons id rest ih =>
    intro os
    cases hl : osLookup os id with
    | none => simpa [enforceAll, hl] using ih os
    | some snap => simpa [enforceAll, hl, hap id] using ih os

/-- An environment in which every OS primitive succeeds. -/
def goodEnv : Env := Env.mk false (fun _ => false) false (fun _ => false)

/-- An environment in which only the monitor subscription fails. -/
def subFailEnv : Env := Env.mk false (fun _ => false) true (fun _ => false)

/-- An environment in which interface enumeration fails. -/
def enumFailEnv : Env := Env.mk true (fun _ => false) false (fun _ => false)

/-- A sample machine with two interfaces: one on DHCP, one static. -/
def sampleOs : OsState :=
  [(1, DnsConfig.mk ["192.168.1.1"] true), (2, DnsConfig.mk ["9.9.9.9"] false)]

/-- An initialized engine with no session. -/
def idleState : EngineState := EngineState.mk true none false []

/-- A sample desired server list. -/
def sampleServers : List Address := ["10.0.0.1"]

/-- Claim C1: for every non-empty server list, `setDnsServers(list)` from
Idle followed by `reset()` restores every interface that came under
management to exactly its pre-session DNS servers and DHCP flag (in
fact the whole OS state is restored verbatim). -/
theorem set_then_reset_restores (env : Env) (servers : List Address)
    (st : EngineState) (os : OsState)
    (hIdle : st.session = none) (hwf : OsWF os) (hne : servers ≠ [])
    (hsub : env.subscribeFails = false)
    (hres : ∀ id, env.restoreFails id = false) :
    (reset env (setDnsServers env servers st os).state
      (setDnsServers env servers st os).os).os = os := by
  by_cases he : env.enumFails
  · simp [setDnsServers, hIdle, he, reset]
  · by_cases hk : osKeys os = []
    · simp [setDnsServers, hIdle, he, hk, reset]
    · by_cases hrec : (enforceAll env servers (osKeys os) os).records.isEmpty
      · have hosr : (enforceAll env servers (osKeys os) os).os = os :=
          enforce_records_nil_os env servers _ os (List.isEmpty_iff.mp hrec)
        simp [setDnsServers, hIdle, he, hk, hrec, reset, hosr]
      · have hround := restore_after_enforce env servers hres (osKeys os) os hwf hwf
          (fun x hx => hx)
        simp [setDnsServers, hIdle, he, hk, hrec, hsub, reset]
        exact hround

theorem set_then_reset_restores_witness :
    (reset goodEnv (setDnsServers goodEnv sampleServers idleState sampleOs).state
      (setDnsServers goodEnv sampleServers idleState sampleOs).os).os = sampleOs :=
  set_then_reset_restores goodEnv sampleServers idleState sampleOs rfl (by decide)
    (by decide) rfl (fun _ => rfl)

/-- Claim C2: if the change-monitor subscription fails during
`setDnsServers`, the whole call fails with `MonitorSubscriptionError`
and the engine never enters Active — the engine state is left exactly
as it was, with no session. -/
theorem monitor_subscription_blocks (env : Env) (servers : List Address)
    (st : EngineState) (os : OsState)
    (hIdle : st.session = none) (henum : env.enumFails = false)
    (hap : ∀ id, env.applyFails id = false) (hos : osKeys os ≠ [])
    (hsub : env.subscribeFails = true) :
    (setDnsServers env servers st os).result =
      Except.error EngineError.monitorSubscription ∧
    (setDnsServers env servers st os).state = st ∧
    (setDnsServers env servers st os).state.session = none := by
  have hids : (enforceAll env servers (osKeys os) os).records.map (fun r => r.id) =
      osKeys os :=
    enforce_records_ids env servers hap (osKeys os) os (fun x hx => hx)
  have hrecne : (enforceAll env servers (osKeys os) os).records ≠ [] := by
    intro hc
    apply hos
    rw [← hids, hc]
    rfl
  have hrec : (enforceAll env servers (osKeys os) os).records.isEmpty = false := by
    cases hcase : (enforceAll env servers (osKeys os) os).records with
    | nil => exact absurd hcase hrecne
    | cons a l => rfl
  refine ⟨?_, ?_, ?_⟩ <;> simp [setDnsServers, hIdle, henum, hos, hrec, hsub]

theorem monitor_subscription_blocks_witness :
    (setDnsServers subFailEnv sampleServers idleState sampleOs).result =
      Except.error EngineError.monitorSubscription ∧
    (setDnsServers subFailEnv sampleServers idleState sampleOs).state = idleState ∧
    (setDnsServers subFailEnv sampleServers idleState sampleOs).state.session = none :=
  monitor_subscription_blocks subFailEnv sampleServers idleState sampleOs rfl rfl
    (fun _ => rfl) (by decide) rfl

/-- Claim C3: when `setDnsServers` from Idle enforces zero interfaces —
enumeration fails, no interfaces exist, or every apply fails — the call
returns a hard failure (`InterfaceEnumerationError` or the aggregate
`ApplyError`), the engine and OS state are unchanged, and a subsequent
`reset()` is a no-op success. -/
theorem zero_enforced_hard_failure (env : Env) (servers : List Address)
    (st : EngineState) (os : OsState) (hIdle : st.session = none)
    (h : env.enumFails = true ∨ osKeys os = [] ∨ ∀ id, env.applyFails id = true) :
    ((setDnsServers env servers st os).result =
        Except.error EngineError.interfaceEnumeration ∨
      (setDnsServers env servers st os).result =
        Except.error EngineError.applyAggregate) ∧
    (setDnsServers env servers st os).state = st ∧
    (setDnsServers env servers st os).os = os ∧
    reset env (setDnsServers env servers st os).state
        (setDnsServers env servers st os).os =
      OpOut.mk (Except.ok ()) (setDnsServers env servers st os).state
        (setDnsServers env servers st os).os [] := by
  have hmain : setDnsServers env servers st os =
      OpOut.mk (Except.error EngineError.interfaceEnumeration) st os [] ∨
      setDnsServers env servers st os =
      OpOut.mk (Except.error EngineError.applyAggregate) st os [] := by
    rcases h with he | hk | hap
    · left; simp [setDnsServers, hIdle, he]
    · by_cases he : env.enumFails
      · left; simp [setDnsServers, hIdle, he]
      · left; simp [setDnsServers, hIdle, he, hk]
    · by_cases he : env.enumFails
      · left; simp [setDnsServers, hIdle, he]
      · by_cases hk : osKeys os = []
        · left; simp [setDnsServers, hIdle, he, hk]
        · right
          have hall := enforce_allfail env servers hap (osKeys os) os
          simp [setDnsServers, hIdle, he, hk, hall.1, hall.2]
  rcases hmain with hm | hm
  · rw [hm]
    refine ⟨Or.inl rfl, rfl, rfl, ?_⟩
    simp [reset, hIdle]
  · rw [hm]
    refine ⟨Or.inr rfl, rfl, rfl, ?_⟩
    simp [reset, hIdle]

theorem zero_enforced_hard_failure_witness :
    ((setDnsServers enumFailEnv sampleServers idleState sampleOs).result =
        Except.error EngineError.interfaceEnumeration ∨
      (setDnsServers enumFailEnv sampleServers idleState sampleOs).result =
        Except.error EngineError.applyAggregate) ∧
    (setDnsServers enumFailEnv sampleServers idleState sampleOs).state = idleState ∧
    (setDnsServers enumFailEnv sampleServers idleState sampleOs).os = sampleOs ∧
    reset enumFailEnv (setDnsServers enumFailEnv sampleServers idleState sampleOs).state
        (setDnsServers enumFailEnv sampleServers idleState sampleOs).os =
      OpOut.mk (Except.ok ())
        (setDnsServers enumFailEnv sampleServers idleState sampleOs).state
        (setDnsServers enumFailEnv sampleServers idleState sampleOs).os [] :=
  zero_enforced_hard_failure enumFailEnv sampleServers idleState sampleOs rfl
    (Or.inl rfl)

/-- A sample session over interface 1. -/
def sampleSession : EnforcementSession :=
  EnforcementSession.mk sampleServers
    [InterfaceRecord.mk 1 (DnsConfig.mk ["192.168.1.1"] true) EnforcementStatus.enforced]

/-- An initialized engine holding `sampleSession` with the monitor armed. -/
def activeState : EngineState := EngineState.mk true (some sampleSession) true []

theorem armedIff_set (env : Env) (servers : List Address) (st : EngineState)
    (os : OsState) (h : ArmedIffSession st) :
    ArmedIffSession (setDnsServers env servers st os).state := by
  cases hs : st.session with
  | none =>
    by_cases he : env.enumFails
    · simpa [setDnsServers, hs, he] using h
    · by_cases hk : osKeys os = []
      · simpa [setDnsServers, hs, he, hk] using h
      · by_cases hrec : (enforceAll env servers (osKeys os) os).records.isEmpty
        · simpa [setDnsServers, hs, he, hk, hrec] using h
        · by_cases hsub : env.subscribeFails
          · simpa [setDnsServers, hs, he, hk, hrec, hsub] using h
          · simp [setDnsServers, hs, he, hk, hrec, hsub, ArmedIffSession]
  | some s =>
    have harm : st.monitorArmed = true := by rw [ArmedIffSession] at h; rw [h, hs]; rfl
    by_cases he : env.enumFails
    · simpa [setDnsServers, hs, he] using h
    · simp [setDnsServers, hs, he, ArmedIffSession, harm]

theorem armedIff_reset (env : Env) (st : EngineState) (os : OsState)
    (h : ArmedIffSession st) : ArmedIffSession (reset env st os).state := by
  cases hs : st.session with
  | none => simpa [reset, hs] using h
  | some s => simp [reset, hs, ArmedIffSession]

theorem armedIff_deinit (env : Env) (st : EngineState) (os : OsState) :
    ArmedIffSession (deinitializeEngine env st os).state := by
  cases hs : st.session with
  | none => simp [deinitializeEngine, hs, ArmedIffSession]
  | some s => simp [deinitializeEngine, hs, ArmedIffSession]

theorem armedIff_reconcile (env : Env) (st : EngineState) (os : OsState)
    (h : ArmedIffSession st) : ArmedIffSession (reconcile env st os).1 := by
  cases hs : st.session with
  | none => simpa [reconcile, hs] using h
  | some s =>
    have harm : st.monitorArmed = true := by rw [ArmedIffSession] at h; rw [h, hs]; rfl
    by_cases he : env.enumFails
    · simpa [reconcile, hs, he] using h
    · simp [reconcile, hs, he, ArmedIffSession, harm]

theorem armedIff_init (sinkUsable : Bool) (st : EngineState) (os : OsState)
    (h : ArmedIffSession st) :
    ArmedIffSession (initializeEngine sinkUsable st os).state := by
  by_cases hu : sinkUsable = false
  · simpa [initializeEngine, hu] using h
  · by_cases hi : st.initialized
    · simpa [initializeEngine, hu, hi] using h
    · simpa [initializeEngine, hu, hi, ArmedIffSession] using h

/-- Claim C5: in every reachable engine state the monitor is armed iff a
session exists, and every operation — `setDnsServers`, `reset`,
`deinitialize`, monitor-driven reconciliation and `initialize` —
preserves this invariant. -/
theorem armed_iff_session_invariant (env : Env) (servers : List Address)
    (sinkUsable : Bool) (st : EngineState) (os : OsState)
    (h : ArmedIffSession st) :
    ArmedIffSession (setDnsServers env servers st os).state ∧
    ArmedIffSession (reset env st os).state ∧
    ArmedIffSession (deinitializeEngine env st os).state ∧
    ArmedIffSession (reconcile env st os).1 ∧
    ArmedIffSession (initializeEngine sinkUsable st os).state :=
  ⟨armedIff_set env servers st os h, armedIff_reset env st os h,
    armedIff_deinit env st os, armedIff_reconcile env st os h,
    armedIff_init sinkUsable st os h⟩

theorem armed_iff_session_invariant_witness :
    ArmedIffSession (setDnsServers goodEnv sampleServers idleState sampleOs).state ∧
    ArmedIffSession (reset goodEnv idleState sampleOs).state ∧
    ArmedIffSession (deinitializeEngine goodEnv idleState sampleOs).state ∧
    ArmedIffSession (reconcile goodEnv idleState sampleOs).1 ∧
    ArmedIffSession (initializeEngine true idleState sampleOs).state :=
  armed_iff_session_invariant goodEnv sampleServers true idleState sampleOs rfl

/-- Claim C6: `deinitialize()` while Active performs the equivalent of
`reset()` — the same resulting OS state and sink log, with the release
of the sink strictly after the reset actions — and afterwards
`initialize` succeeds again. -/
theorem deinitialize_equiv_reset (env : Env) (st : EngineState) (os : OsState)
    (s : EnforcementSession) (hs : st.session = some s) :
    (deinitializeEngine env st os).result = Except.ok () ∧
    (deinitializeEngine env st os).os = (reset env st os).os ∧
    (deinitializeEngine env st os).state =
      EngineState.mk false none false (reset env st os).state.log ∧
    (deinitializeEngine env st os).trace =
      (reset env st os).trace ++ [EngineAction.releaseSink] ∧
    (initializeEngine true (deinitializeEngine env st os).state
        (deinitializeEngine env st os).os).result = Except.ok () ∧
    (initializeEngine true (deinitializeEngine env st os).state
        (deinitializeEngine env st os).os).state.initialized = true := by
  refine ⟨?_, ?_, ?_, ?_, ?_, ?_⟩ <;>
    simp [deinitializeEngine, hs, initializeEngine, reset]

theorem deinitialize_equiv_reset_witness :
    (deinitializeEngine goodEnv activeState sampleOs).result = Except.ok () ∧
    (deinitializeEngine goodEnv activeState sampleOs).os =
      (reset goodEnv activeState sampleOs).os ∧
    (deinitializeEngine goodEnv activeState sampleOs).state =
      EngineState.mk false none false (reset goodEnv activeState sampleOs).state.log ∧
    (deinitializeEngine goodEnv activeState sampleOs).trace =
      (reset goodEnv activeState sampleOs).trace ++ [EngineAction.releaseSink] ∧
    (initializeEngine true (deinitializeEngine goodEnv activeState sampleOs).state
        (deinitializeEngine goodEnv activeState sampleOs).os).result = Except.ok () ∧
    (initializeEngine true (deinitializeEngine goodEnv activeState sampleOs).state
        (deinitializeEngine goodEnv activeState sampleOs).os).state.initialized = true :=
  deinitialize_equiv_reset goodEnv activeState sampleOs sampleSession rfl

/-- Claim C7: `reset()` from Idle is a no-op success; from Active it
disarms the monitor before any per-interface restore (first trace
action), restores every record regardless of individual failures,
aggregates failures into a RestoreError report, and returns the engine
to Idle with an ok result in every environment. -/
theorem reset_behaviour (env : Env) (st : EngineState) (os : OsState) :
    (st.session = none → reset env st os = OpOut.mk (Except.ok ()) st os []) ∧
    (∀ s, st.session = some s →
      (reset env st os).result = Except.ok () ∧
      (reset env st os).state.session = none ∧
      (reset env st os).state.monitorArmed = false ∧
      (reset env st os).trace =
        EngineAction.disarmMonitor ::
          s.records.map (fun r => EngineAction.restoreIface r.id) ∧
      (reset env st os).os = (restoreAll env s.records os).os ∧
      ((restoreAll env s.records os).failed ≠ [] →
        (reset env st os).state.log = st.log ++ [reportRestore]) ∧
      ((restoreAll env s.records os).failed = [] →
        (reset env st os).state.log = st.log)) := by
  constructor
  · intro h
    simp [reset, h]
  · intro s hs
    refine ⟨?_, ?_, ?_, ?_, ?_, ?_, ?_⟩
    · simp [reset, hs]
    · simp [reset, hs]
    · simp [reset, hs]
    · simp [reset, hs, resetTrace]
    · simp [reset, hs]
    · intro hf
      have hemp : (restoreAll env s.records os).failed.isEmpty = false := by
        cases hc : (restoreAll env s.records os).failed with
        | nil => exact absurd hc hf
        | cons a l => rfl
      simp [reset, hs, hemp]
    · intro hf
      simp [reset, hs, hf]

theorem reset_behaviour_witness :
    reset goodEnv idleState sampleOs = OpOut.mk (Except.ok ()) idleState sampleOs [] ∧
    (reset goodEnv activeState sampleOs).state.session = none ∧
    (reset goodEnv activeState sampleOs).trace =
      EngineAction.disarmMonitor ::
        sampleSession.records.map (fun r => EngineAction.restoreIface r.id) :=
  ⟨(reset_behaviour goodEnv idleState sampleOs).1 rfl,
    ((reset_behaviour goodEnv activeState sampleOs).2 sampleSession rfl).2.1,
    ((reset_behaviour goodEnv activeState sampleOs).2 sampleSession rfl).2.2.2.1⟩

/-- Claim C4: `setDnsServers` is idempotent — calling it twice in a row
yields the same final interface state (and engine state) as calling it
once, and the second call, made while Active, succeeds as a safe
re-affirmation. -/
theorem setDnsServers_idempotent (env : Env) (servers : List Address)
    (st : EngineState) (os : OsState)
    (hIdle : st.session = none) (hwf : OsWF os) (hos : osKeys os ≠ [])
    (henum : env.enumFails = false) (hsub : env.subscribeFails = false)
    (hap : ∀ id, env.applyFails id = false) :
    (setDnsServers env servers (setDnsServers env servers st os).state
        (setDnsServers env servers st os).os).result = Except.ok () ∧
    (setDnsServers env servers (setDnsServers env servers st os).state
        (setDnsServers env servers st os).os).os =
      (setDnsServers env servers st os).os ∧
    (setDnsServers env servers (setDnsServers env servers st os).state
        (setDnsServers env servers st os).os).state =
      (setDnsServers env servers st os).state := by
  have hids := enforce_records_ids env servers hap (osKeys os) os (fun x hx => hx)
  have hrecne : (enforceAll env servers (osKeys os) os).records ≠ [] := by
    intro hc
    apply hos
    rw [← hids, hc]
    rfl
  have hrec : (enforceAll env servers (osKeys os) os).records.isEmpty = false := by
    cases hcase : (enforceAll env servers (osKeys os) os).records with
    | nil => exact absurd hcase hrecne
    | cons a l => rfl
  have hfail := enforce_failed_nil env servers hap (osKeys os) os (fun x hx => hx)
  have ho1 : setDnsServers env servers st os =
      OpOut.mk (Except.ok ())
        (EngineState.mk st.initialized
          (some (EnforcementSession.mk servers
            (enforceAll env servers (osKeys os) os).records)) true st.log)
        (enforceAll env servers (osKeys os) os).os [EngineAction.armMonitor] := by
    simp [setDnsServers, hIdle, henum, hos, hrec, hsub, hfail]
  have hkeys : osKeys (enforceAll env servers (osKeys os) os).os = osKeys os :=
    enforce_keys env servers (osKeys os) os
  have hwf1 : OsWF (enforceAll env servers (osKeys os) os).os := by
    unfold OsWF
    rw [hkeys]
    exact hwf
  have hfix := reapply_fixed env servers (enforceAll env servers (osKeys os) os).records
    hap (osKeys (enforceAll env servers (osKeys os) os).os)
    (enforceAll env servers (osKeys os) os).os hwf1 ?_
  · refine ⟨?_, ?_, ?_⟩ <;> rw [ho1] <;> simp [setDnsServers, henum, hfix]
  · intro x hx
    rw [hkeys] at hx
    constructor
    · rw [findRecord_isSome_iff, hids]
      exact hx
    · exact enforce_lookup_target env servers hap (osKeys os) os x hx hx

theorem setDnsServers_idempotent_witness :
    (setDnsServers goodEnv sampleServers
        (setDnsServers goodEnv sampleServers idleState sampleOs).state
        (setDnsServers goodEnv sampleServers idleState sampleOs).os).result =
      Except.ok () ∧
    (setDnsServers goodEnv sampleServers
        (setDnsServers goodEnv sampleServers idleState sampleOs).state
        (setDnsServers goodEnv sampleServers idleState sampleOs).os).os =
      (setDnsServers goodEnv sampleServers idleState sampleOs).os ∧
    (setDnsServers goodEnv sampleServers
        (setDnsServers goodEnv sampleServers idleState sampleOs).state
        (setDnsServers goodEnv sampleServers idleState sampleOs).os).state =
      (setDnsServers goodEnv sampleServers idleState sampleOs).state :=
  setDnsServers_idempotent goodEnv sampleServers idleState sampleOs rfl (by decide)
    (by decide) rfl rfl (fun _ => rfl)

theorem record_unique (recs : List InterfaceRecord)
    (hnd : (recs.map (fun r => r.id)).Nodup) (r r' : InterfaceRecord)
    (hr : r ∈ recs) (hr' : r' ∈ recs) (heq : r'.id = r.id) : r' = r :=
  List.inj_on_of_nodup_map hnd hr' hr heq

theorem reapply_new_records (env : Env) (servers : List Address)
    (known : List InterfaceRecord) :
    ∀ (ids : List InterfaceId) (os : OsState) (r : InterfaceRecord),
      r ∈ (reapplyAll env servers known ids os).records →
      findRecord known r.id = none := by
  intro ids
  induction ids with
  | nil =>
    intro os r h
    simp [reapplyAll] at h
  | cons id rest ih =>
    intro os r h
    cases hfind : findRecord known id with
    | some r0 =>
      by_cases ha : env.applyFails id
      · simp [reapplyAll, hfind, ha] at h
        exact ih _ _ h
      · simp [reapplyAll, hfind, ha] at h
        exact ih _ _ h
    | none =>
      cases hl : osLookup os id with
      | none =>
        simp [reapplyAll, hfind, hl] at h
        exact ih _ _ h
      | some snap =>
        by_cases ha : env.applyFails id
        · simp [reapplyAll, hfind, hl, ha] at h
          exact ih _ _ h
        · simp [reapplyAll, hfind, hl, ha] at h
          cases h with
          | inl he => rw [he]; exact hfind
          | inr hm => exact ih _ _ hm

theorem reconcileGo_new_records (env : Env) (desired : List Address)
    (known : List InterfaceRecord) :
    ∀ (ids : List InterfaceId) (os : OsState) (r : InterfaceRecord),
      r ∈ (reconcileGo env desired known ids os).1 →
      findRecord known r.id = none ∧ r.id ∈ ids := by
  intro ids
  induction ids with
  | nil =>
    intro os r h
    simp [reconcileGo] at h
  | cons id rest ih =>
    intro os r h
    cases hfind : findRecord known id with
    | some r0 =>
      by_cases hmatch : osLookup os id = some (appliedConfig desired)
      · simp [reconcileGo, hfind, hmatch] at h
        obtain ⟨h1, h2⟩ := ih _ _ h
        exact ⟨h1, List.mem_cons_of_mem _ h2⟩
      · by_cases ha : env.applyFails id
        · simp [reconcileGo, hfind, hmatch, ha] at h
          obtain ⟨h1, h2⟩ := ih _ _ h
          exact ⟨h1, List.mem_cons_of_mem _ h2⟩
        · simp [reconcileGo, hfind, hmatch, ha] at h
          obtain ⟨h1, h2⟩ := ih _ _ h
          exact ⟨h1, List.mem_cons_of_mem _ h2⟩
    | none =>
      cases hl : osLookup os id with
      | none =>
        simp [reconcileGo, hfind, hl] at h
        obtain ⟨h1, h2⟩ := ih _ _ h
        exact ⟨h1, List.mem_cons_of_mem _ h2⟩
      | some snap =>
        by_cases ha : env.applyFails id
        · simp [reconcileGo, hfind, hl, ha] at h
          obtain ⟨h1, h2⟩ := ih _ _ h
          exact ⟨h1, List.mem_cons_of_mem _ h2⟩
        · simp [reconcileGo, hfind, hl, ha] at h
          cases h with
          | inl he => rw [he]; exact ⟨hfind, List.mem_cons_self _ _⟩
          | inr hm =>
            obtain ⟨h1, h2⟩ := ih _ _ hm
            exact ⟨h1, List.mem_cons_of_mem _ h2⟩

/-- Claim C8: an InterfaceRecord's captured original snapshot is written
exactly once, when the interface first comes under enforcement; no
subsequent `setDnsServers` call or reconciliation pass changes the
snapshot of a record that persists — every record carrying the same
interface id afterwards carries the identical original snapshot. -/
theorem original_snapshot_immutable (env : Env) (servers : List Address)
    (st : EngineState) (os : OsState) (s : EnforcementSession)
    (hs : st.session = some s)
    (hnd : (s.records.map (fun r => r.id)).Nodup)
    (r : InterfaceRecord) (hr : r ∈ s.records) :
    (∀ s', (setDnsServers env servers st os).state.session = some s' →
      ∀ r' ∈ s'.records, r'.id = r.id → r'.original = r.original) ∧
    (∀ s', (reconcile env st os).1.session = some s' →
      ∀ r' ∈ s'.records, r'.id = r.id → r'.original = r.original) := by
  constructor
  · intro s' hs' r' hr' heq
    by_cases he : env.enumFails
    · simp [setDnsServers, hs, he] at hs'
      rw [← hs'] at hr'
      rw [record_unique s.records hnd r r' hr hr' heq]
    · simp [setDnsServers, hs, he] at hs'
      rw [← hs'] at hr'
      rcases List.mem_append.mp hr' with hmem | hmem
      · rw [record_unique s.records hnd r r' hr hmem heq]
      · exfalso
        have hnone := reapply_new_records env servers s.records _ _ r' hmem
        rw [heq] at hnone
        have hsome := findRecord_of_mem s.records r hr
        rw [hnone] at hsome
        simp at hsome
  · intro s' hs' r' hr' heq
    by_cases he : env.enumFails
    · simp [reconcile, hs, he] at hs'
      rw [← hs'] at hr'
      rw [record_unique s.records hnd r r' hr hr' heq]
    · simp [reconcile, hs, he] at hs'
      rw [← hs'] at hr'
      rcases List.mem_append.mp hr' with hmem | hmem
      · have : r' ∈ s.records := List.mem_of_mem_filter hmem
        rw [record_unique s.records hnd r r' hr this heq]
      · exfalso
        obtain ⟨hnone, hids⟩ := reconcileGo_new_records env s.desired _ _ _ r' hmem
        by_cases hlive : (osLookup os r.id).isSome
        · have hkept : r ∈ s.records.filter (fun x => (osLookup os x.id).isSome) := by
            rw [List.mem_filter]
            exact ⟨hr, by simpa using hlive⟩
          have hsome := findRecord_of_mem _ r hkept
          rw [heq] at hnone
          rw [hnone] at hsome
          simp at hsome
        · rw [heq] at hids
          exact hlive ((osLookup_isSome_iff_mem os r.id).mpr hids)

theorem original_snapshot_immutable_witness :
    (∀ s', (setDnsServers goodEnv sampleServers activeState sampleOs).state.session =
        some s' →
      ∀ r' ∈ s'.records,
        r'.id = (InterfaceRecord.mk 1 (DnsConfig.mk ["192.168.1.1"] true)
          EnforcementStatus.enforced).id →
        r'.original = (InterfaceRecord.mk 1 (DnsConfig.mk ["192.168.1.1"] true)
          EnforcementStatus.enforced).original) ∧
    (∀ s', (reconcile goodEnv activeState sampleOs).1.session = some s' →
      ∀ r' ∈ s'.records,
        r'.id = (InterfaceRecord.mk 1 (DnsConfig.mk ["192.168.1.1"] true)
          EnforcementStatus.enforced).id →
        r'.original = (InterfaceRecord.mk 1 (DnsConfig.mk ["192.168.1.1"] true)
          EnforcementStatus.enforced).original) :=
  original_snapshot_immutable goodEnv sampleServers activeState sampleOs sampleSession
    rfl (by decide)
    (InterfaceRecord.mk 1 (DnsConfig.mk ["192.168.1.1"] true) EnforcementStatus.enforced)
    (by decide)

theorem lookup_or_after_set (env : Env) (desired : List Address)
    (known : List InterfaceRecord) (rest : List InterfaceId) (os : OsState)
    (x id : InterfaceId)
    (h0 : osLookup (reconcileGo env desired known rest
        (osSet os id (appliedConfig desired))).2 x =
        osLookup (osSet os id (appliedConfig desired)) x ∨
      osLookup (reconcileGo env desired known rest
        (osSet os id (appliedConfig desired))).2 x = some (appliedConfig desired)) :
    osLookup (reconcileGo env desired known rest
      (osSet os id (appliedConfig desired))).2 x = osLookup os x ∨
    osLookup (reconcileGo env desired known rest
      (osSet os id (appliedConfig desired))).2 x = some (appliedConfig desired) := by
  rcases h0 with h | h
  · rw [osLookup_osSet] at h
    by_cases hx : x = id
    · subst hx
      cases hl : osLookup os x with
      | none =>
        left
        rw [h]
        simp [hl]
      | some c =>
        right
        rw [h]
        simp [hl]
    · left
      rw [h]
      simp [hx]
  · right
    exact h

theorem reconcileGo_lookup_or (env : Env) (desired : List Address)
    (known : List InterfaceRecord) :
    ∀ (ids : List InterfaceId) (os : OsState) (x : InterfaceId),
      osLookup (reconcileGo env desired known ids os).2 x = osLookup os x ∨
      osLookup (reconcileGo env desired known ids os).2 x =
        some (appliedConfig desired) := by
  intro ids
  induction ids with
  | nil => intro os x; left; rfl
  | cons id rest ih =>
    intro os x
    cases hfind : findRecord known id with
    | some r0 =>
      by_cases hmatch : osLookup os id = some (appliedConfig desired)
      · have heq : (reconcileGo env desired known (id :: rest) os).2 =
            (reconcileGo env desired known rest os).2 := by
          simp [reconcileGo, hfind, hmatch]
        rw [heq]
        exact ih os x
      · by_cases ha : env.applyFails id
        · have heq : (reconcileGo env desired known (id :: rest) os).2 =
              (reconcileGo env desired known rest os).2 := by
            simp [reconcileGo, hfind, hmatch, ha]
          rw [heq]
          exact ih os x
        · have heq : (reconcileGo env desired known (id :: rest) os).2 =
              (reconcileGo env desired known rest
                (osSet os id (appliedConfig desired))).2 := by
            simp [reconcileGo, hfind, hmatch, ha]
          rw [heq]
          exact lookup_or_after_set env desired known rest os x id
            (ih (osSet os id (appliedConfig desired)) x)
    | none =>
      cases hl : osLookup os id with
      | none =>
        have heq : (reconcileGo env desired known (id :: rest) os).2 =
            (reconcileGo env desired known rest os).2 := by
          simp [reconcileGo, hfind, hl]
        rw [heq]
        exact ih os x
      | some snap =>
        by_cases ha : env.applyFails id
        · have heq : (reconcileGo env desired known (id :: rest) os).2 =
              (reconcileGo env desired known rest os).2 := by
            simp [reconcileGo, hfind, hl, ha]
          rw [heq]
          exact ih os x
        · have heq : (reconcileGo env desired known (id :: rest) os).2 =
              (reconcileGo env desired known rest
                (osSet os id (appliedConfig desired))).2 := by
            simp [reconcileGo, hfind, hl, ha]
          rw [heq]
          exact lookup_or_after_set env desired known rest os x id
            (ih (osSet os id (appliedConfig desired)) x)

theorem reconcileGo_target (env : Env) (desired : List Address)
    (known : List InterfaceRecord) (hap : ∀ id, env.applyFails id = false) :
    ∀ (ids : List InterfaceId) (os : OsState) (x : InterfaceId),
      x ∈ ids → x ∈ osKeys os →
      osLookup (reconcileGo env desired known ids os).2 x =
        some (appliedConfig desired) := by
  intro ids
  induction ids with
  | nil => intro os x hx _; simp at hx
  | cons id rest ih =>
    intro os x hx hmem
    rcases List.mem_cons.mp hx with hx1 | hx2
    · subst hx1
      obtain ⟨snap, hl⟩ := Option.isSome_iff_exists.mp
        ((osLookup_isSome_iff_mem os x).mpr hmem)
      cases hfind : findRecord known x with
      | some r0 =>
        by_cases hmatch : osLookup os x = some (appliedConfig desired)
        · have heq : (reconcileGo env desired known (x :: rest) os).2 =
              (reconcileGo env desired known rest os).2 := by
            simp [reconcileGo, hfind, hmatch]
          rw [heq]
          rcases reconcileGo_lookup_or env desired known rest os x with h | h
          · rw [h, hmatch]
          · exact h
        · have heq : (reconcileGo env desired known (x :: rest) os).2 =
              (reconcileGo env desired known rest
                (osSet os x (appliedConfig desired))).2 := by
            simp [reconcileGo, hfind, hmatch, hap x]
          rw [heq]
          rcases reconcileGo_lookup_or env desired known rest
            (osSet os x (appliedConfig desired)) x with h | h
          · rw [h, osLookup_osSet, if_pos rfl, hl]
            simp
          · exact h
      | none =>
        have heq : (reconcileGo env desired known (x :: rest) os).2 =
            (reconcileGo env desired known rest
              (osSet os x (appliedConfig desired))).2 := by
          simp [reconcileGo, hfind, hl, hap x]
        rw [heq]
        rcases reconcileGo_lookup_or env desired known rest
          (osSet os x (appliedConfig desired)) x with h | h
        · rw [h, osLookup_osSet, if_pos rfl, hl]
          simp
        · exact h
    · cases hfind : findRecord known id with
      | some r0 =>
        by_cases hmatch : osLookup os id = some (appliedConfig desired)
        · have heq : (reconcileGo env desired known (id :: rest) os).2 =
              (reconcileGo env desired known rest os).2 := by
            simp [reconcileGo, hfind, hmatch]
          rw [heq]
          exact ih os x hx2 hmem
        · have heq : (reconcileGo env desired known (id :: rest) os).2 =
              (reconcileGo env desired known rest
                (osSet os id (appliedConfig desired))).2 := by
            simp [reconcileGo, hfind, hmatch, hap id]
          rw [heq]
          apply ih _ x hx2
          rw [osKeys_osSet]
          exact hmem
      | none =>
        cases hli : osLookup os id with
        | none =>
          have heq : (reconcileGo env desired known (id :: rest) os).2 =
              (reconcileGo env desired known rest os).2 := by
            simp [reconcileGo, hfind, hli]
          rw [heq]
          exact ih os x hx2 hmem
        | some snap2 =>
          have heq : (reconcileGo env desired known (id :: rest) os).2 =
              (reconcileGo env desired known rest
                (osSet os id (appliedConfig desired))).2 := by
            simp [reconcileGo, hfind, hli, hap id]
          rw [heq]
          apply ih _ x hx2
          rw [osKeys_osSet]
          exact hmem

theorem deliverBurst_pending (n : Nat) :
    deliverBurst n (Coalescer.mk true true) = (Coalescer.mk true true, 0) := by
  induction n with
  | zero => rfl
  | succ n ih => simp [deliverBurst, onChangeEvent, ih]

theorem deliverBurst_inflight (n : Nat) (hn : 1 ≤ n) :
    deliverBurst n (Coalescer.mk true false) = (Coalescer.mk true true, 0) := by
  cases n with
  | zero => exact absurd hn (by simp)
  | succ n => simp [deliverBurst, onChangeEvent, deliverBurst_pending]

/-- Claim C9: reconciliation runs under a single-writer discipline — a
pass starts on an event only when none is in flight, a burst of events
during an in-flight pass starts no concurrent pass and coalesces into
exactly one follow-up pass at completion, after which (with no further
events) the coalescer goes idle — and a reconciliation pass leaves
every enumerated interface at the desired configuration. -/
theorem reconciliation_single_writer (env : Env) (st : EngineState)
    (os : OsState) (s : EnforcementSession) (n : Nat)
    (hs : st.session = some s) (henum : env.enumFails = false)
    (hap : ∀ id, env.applyFails id = false) (hn : 1 ≤ n) :
    (∀ c : Coalescer, (onChangeEvent c).2 = true → c.inFlight = false) ∧
    deliverBurst n (Coalescer.mk true false) = (Coalescer.mk true true, 0) ∧
    onPassComplete (Coalescer.mk true true) = (Coalescer.mk true false, true) ∧
    onPassComplete (Coalescer.mk true false) = (Coalescer.mk false false, false) ∧
    (∀ x ∈ osKeys os, osLookup (reconcile env st os).2 x =
      some (appliedConfig s.desired)) := by
  refine ⟨?_, deliverBurst_inflight n hn, rfl, rfl, ?_⟩
  · intro c h
    by_cases hc : c.inFlight
    · simp [onChangeEvent, hc] at h
    · simpa using hc
  · intro x hx
    simp only [reconcile, hs, henum, Bool.false_eq_true, if_false]
    exact reconcileGo_target env s.desired _ hap (osKeys os) os x hx hx

theorem reconciliation_single_writer_witness :
    (∀ c : Coalescer, (onChangeEvent c).2 = true → c.inFlight = false) ∧
    deliverBurst 3 (Coalescer.mk true false) = (Coalescer.mk true true, 0) ∧
    onPassComplete (Coalescer.mk true true) = (Coalescer.mk true false, true) ∧
    onPassComplete (Coalescer.mk true false) = (Coalescer.mk false false, false) ∧
    (∀ x ∈ osKeys sampleOs, osLookup (reconcile goodEnv activeState sampleOs).2 x =
      some (appliedConfig sampleSession.desired)) :=
  reconciliation_single_writer goodEnv activeState sampleOs sampleSession 3 rfl rfl
    (fun _ => rfl) (by decide)

/-- Claim C10: within one initialize/deinitialize lifetime the engine
supports repeated enforcement sessions — from an initialized Idle
state, `setDnsServers` succeeds and creates a session, the following
`reset` returns the engine and the OS exactly to the starting point,
and the set/reset cycle can be repeated arbitrarily many times. -/
theorem repeated_sessions (env : Env) (servers : List Address)
    (st : EngineState) (os : OsState)
    (hIdle : st.session = none) (hArm : st.monitorArmed = false)
    (hwf : OsWF os) (hos : osKeys os ≠ []) (hne : servers ≠ [])
    (henum : env.enumFails = false) (hsub : env.subscribeFails = false)
    (hap : ∀ id, env.applyFails id = false)
    (hres : ∀ id, env.restoreFails id = false) :
    (setDnsServers env servers st os).result = Except.ok () ∧
    (setDnsServers env servers st os).state.session.isSome = true ∧
    setResetCycle env servers st os = (st, os) ∧
    ∀ n, iterateCycles env servers n (st, os) = (st, os) := by
  have hids := enforce_records_ids env servers hap (osKeys os) os (fun x hx => hx)
  have hrecne : (enforceAll env servers (osKeys os) os).records ≠ [] := by
    intro hc
    apply hos
    rw [← hids, hc]
    rfl
  have hrec : (enforceAll env servers (osKeys os) os).records.isEmpty = false := by
    cases hcase : (enforceAll env servers (osKeys os) os).records with
    | nil => exact absurd hcase hrecne
    | cons a l => rfl
  have hfail := enforce_failed_nil env servers hap (osKeys os) os (fun x hx => hx)
  have ho1 : setDnsServers env servers st os =
      OpOut.mk (Except.ok ())
        (EngineState.mk st.initialized
          (some (EnforcementSession.mk servers
            (enforceAll env servers (osKeys os) os).records)) true st.log)
        (enforceAll env servers (osKeys os) os).os [EngineAction.armMonitor] := by
    simp [setDnsServers, hIdle, henum, hos, hrec, hsub, hfail]
  have hround := restore_after_enforce env servers hres (osKeys os) os hwf hwf
    (fun x hx => hx)
  have hrfail := restore_failed_nil env hres
    (enforceAll env servers (osKeys os) os).records
    (enforceAll env servers (osKeys os) os).os
  have hst : EngineState.mk st.initialized none false st.log = st := by
    cases st with
    | mk i sess armed log =>
      simp at hIdle hArm
      rw [hIdle, hArm]
  have hcycle : setResetCycle env servers st os = (st, os) := by
    unfold setResetCycle
    rw [ho1]
    simp [reset, hrfail, hround, hst]
  refine ⟨?_, ?_, hcycle, ?_⟩
  · rw [ho1]
  · rw [ho1]
    rfl
  · intro n
    induction n with
    | zero => rfl
    | succ n ih =>
      rw [iterateCycles]
      simpa [hcycle] using ih

theorem repeated_sessions_witness :
    (setDnsServers goodEnv sampleServers idleState sampleOs).result = Except.ok () ∧
    (setDnsServers goodEnv sampleServers idleState sampleOs).state.session.isSome =
      true ∧
    setResetCycle goodEnv sampleServers idleState sampleOs = (idleState, sampleOs) ∧
    ∀ n, iterateCycles goodEnv sampleServers n (idleState, sampleOs) =
      (idleState, sampleOs) :=
  repeated_sessions goodEnv sampleServers idleState sampleOs rfl rfl (by decide)
    (by decide) (by decide) rfl rfl (fun _ => rfl) (fun _ => rfl)
